import Mathlib

/-!
Verification development for the pagodo dork-search engine
(`pagodo_gui_pyqt6.py`, with the PyQt5 front-end validation from
`pagodo_gui.py`).  The Python source is shallowly embedded: strings are
Lean `String`s manipulated through structural-recursive character-list
functions mirroring the Python `str` operations the code uses, the
search thread's loop is a function from its inputs (dork list, domain,
proxies, per-query fetch outcomes, cancellation point) to the sequence
of emitted events, and the GUI result accumulation is explicit state
passing.
-/

namespace Pagodo

/-! ### Python string primitives (structural recursion so the kernel can evaluate them) -/

/-- Split a character list at the first occurrence of character `c`
(Python `s.split(c, 1)`): `none` when `c` does not occur, otherwise
the pieces before and after the first occurrence. -/
def splitFirstChar (c : Char) : List Char → Option (List Char × List Char)
  | [] => none
  | x :: xs =>
    if x = c then some ([], xs)
    else
      match splitFirstChar c xs with
      | none => none
      | some (pre, post) => some (x :: pre, post)

/-- Split a character list on every occurrence of character `c`
(Python `s.split(c)` for a one-character separator). -/
def splitChar (c : Char) : List Char → List (List Char)
  | [] => [[]]
  | x :: xs =>
    let r := splitChar c xs
    if x = c then [] :: r
    else
      match r with
      | chunk :: rest => (x :: chunk) :: rest
      | [] => [[x]]

/-- Fuel-driven worker for multi-character split: scan `rest`, cutting a
chunk whenever `sep` is a prefix of the remaining input. -/
def splitSeqAux (sep : List Char) : Nat → List Char → List Char → List (List Char)
  | 0, _, cur => [cur.reverse]
  | _ + 1, [], cur => [cur.reverse]
  | fuel + 1, c :: rest, cur =>
    if sep.isPrefixOf (c :: rest) then
      cur.reverse :: splitSeqAux sep fuel ((c :: rest).drop sep.length) []
    else
      splitSeqAux sep fuel rest (c :: cur)

/-- Python `s.split(sep)` for a non-empty multi-character separator. -/
def pySplit (s sep : String) : List String :=
  if sep.data.isEmpty then [s]
  else (splitSeqAux sep.data (s.data.length + 1) s.data []).map String.mk

/-- Python `needle in hay` for strings: the split on `needle` yields at
least two chunks exactly when `needle` occurs in `hay`. -/
def substrIn (needle hay : String) : Bool :=
  decide (2 ≤ (pySplit hay needle).length)

/-- Python `s.startswith(p)`. -/
def pyStartsWith (s p : String) : Bool :=
  p.data.isPrefixOf s.data

/-- Python `s.lower()` (ASCII model, matching the URLs the tool handles). -/
def pyLower (s : String) : String :=
  String.mk (s.data.map Char.toLower)

/-- Value of a hexadecimal digit, `none` for a non-hex character. -/
def hexVal? (c : Char) : Option Nat :=
  if '0' ≤ c ∧ c ≤ '9' then some (c.toNat - '0'.toNat)
  else if 'a' ≤ c ∧ c ≤ 'f' then some (c.toNat - 'a'.toNat + 10)
  else if 'A' ≤ c ∧ c ≤ 'F' then some (c.toNat - 'A'.toNat + 10)
  else none

/-- Percent-decoding worker: `%hh` sequences become the denoted code
point, invalid escapes pass through unchanged. -/
def unquoteList : List Char → List Char
  | [] => []
  | '%' :: a :: b :: rest =>
    match hexVal? a, hexVal? b with
    | some ha, some hb => Char.ofNat (16 * ha + hb) :: unquoteList rest
    | _, _ => '%' :: unquoteList (a :: b :: rest)
  | c :: rest => c :: unquoteList rest

/-- Python `urllib.parse.unquote` (single-byte model of percent-decoding). -/
def unquotePy (s : String) : String :=
  String.mk (unquoteList s.data)

/-! ### ResultExtractor: the parsing loop of `DorkSearchThread.google_search`

The response body is represented by the list of `href` attributes of its
anchor elements, in document order, which is exactly what the Python loop
`for link in soup.find_all("a"): href = link.get("href", "")` iterates. -/

/-- One step of the Python loop body: given one `href`, either the
extracted candidate URL (redirect unwrapping plus percent-decoding) or
`none` when the redirect marker is absent. -/
def hrefCandidate (href : String) : Option String :=
  let parts := pySplit href "/url?q="
  if 2 ≤ parts.length then
    some (unquotePy (String.mk ((splitChar '&' (parts.getD 1 "").data).headD [])))
  else none

/-- The accumulation loop of `google_search`: append candidates that
start with "http", stopping as soon as `maxResults` URLs are collected. -/
def extractLoop : List String → Nat → List String → List String
  | [], _, acc => acc
  | href :: rest, maxResults, acc =>
    match hrefCandidate href with
    | some url =>
      if pyStartsWith url "http" then
        if maxResults ≤ (acc ++ [url]).length then acc ++ [url]
        else extractLoop rest maxResults (acc ++ [url])
      else extractLoop rest maxResults acc
    | none => extractLoop rest maxResults acc

/-- `google_search`'s URL extraction over a parsed page. -/
def extractUrls (hrefs : List String) (maxResults : Nat) : List String :=
  extractLoop hrefs maxResults []

/-- Outcome of the single outbound request of `google_search`: a response
with its status code and anchor hrefs, or a transport-level exception. -/
inductive FetchOutcome
  | ok (status : Nat) (hrefs : List String)
  | timeout
  | connectionError
deriving DecidableEq

/-- `DorkSearchThread.google_search`: requests-level exceptions are caught
and yield the URLs collected so far (none, since the request is the first
statement that can fail), a non-200 status leaves the list empty, and a
200 response is parsed by the extraction loop. -/
def google_search (outcome : FetchOutcome) (maxResults : Nat) : List String :=
  match outcome with
  | .ok status hrefs => if status = 200 then extractUrls hrefs maxResults else []
  | .timeout => []
  | .connectionError => []

/-- Transport failures named by the spec: timeout, connection error, or a
non-2xx status. -/
def isTransportFailure : FetchOutcome → Bool
  | .ok status _ => decide (status < 200 ∨ 300 ≤ status)
  | .timeout => true
  | .connectionError => true

/-! ### SearchOrchestrator: `DorkSearchThread.run` -/

/-- Effective query string: `f"{dork} site:{domain}"` when a domain is
configured, the bare dork otherwise. -/
def buildQuery (domain dork : String) : String :=
  if domain ≠ "" then dork ++ " site:" ++ domain else dork

/-- Proxy chosen for one iteration: `proxies[proxy_index % len(proxies)]`
when the pool is non-empty, no proxy otherwise. -/
def selectProxy (proxies : List String) (proxyIndex : Nat) : Option String :=
  if proxies.isEmpty then none
  else some (proxies.getD (proxyIndex % proxies.length) "")

/-- Value of `self.running` at the top of iteration `idx`: `stopAfter = some i`
models a stop request that lands after iteration `i` completes and before
iteration `i + 1` begins, `none` models a run with no stop request. -/
def runningAt (stopAfter : Option Nat) (idx : Nat) : Bool :=
  match stopAfter with
  | none => true
  | some i => decide (idx ≤ i)

/-- Observable actions of `DorkSearchThread.run`: the emitted Qt signals
(`progress`, `result`, `finished`, `error`) plus the outbound fetch and
the inter-request sleep, in program order. -/
inductive RunEvent
  | progress (message : String) (current total : Nat)
  | fetch (query : String) (proxy : Option String)
  | result (dork : String) (urls : List String) (count : Nat)
  | sleep
  | finished
  | error (message : String)
deriving DecidableEq

/-- Whether an event is the `error` signal. -/
def RunEvent.isError : RunEvent → Bool
  | .error _ => true
  | _ => false

/-- The loop of `DorkSearchThread.run` from iteration `idx` on, with the
current proxy cursor `pidx` and the remaining dorks; emits `finished`
after the loop exits (normally or through the cancellation `break`). -/
def runFrom (domain : String) (proxies : List String) (maxResults : Nat)
    (outcomes : Nat → FetchOutcome) (stopAfter : Option Nat) (total : Nat) :
    Nat → Nat → List String → List RunEvent
  | _, _, [] => [RunEvent.finished]
  | idx, pidx, dork :: rest =>
    if runningAt stopAfter idx then
      RunEvent.progress ("Searching: " ++ dork) (idx + 1) total ::
      RunEvent.fetch (buildQuery domain dork) (selectProxy proxies pidx) ::
      RunEvent.result dork (google_search (outcomes idx) maxResults)
        (google_search (outcomes idx) maxResults).length ::
      RunEvent.sleep ::
      runFrom domain proxies maxResults outcomes stopAfter total (idx + 1)
        (if proxies.isEmpty then pidx else pidx + 1) rest
    else [RunEvent.finished]

/-- `DorkSearchThread.run`: the full event trace of one run. -/
def runEvents (dorks : List String) (domain : String) (proxies : List String)
    (maxResults : Nat) (outcomes : Nat → FetchOutcome) (stopAfter : Option Nat) :
    List RunEvent :=
  runFrom domain proxies maxResults outcomes stopAfter dorks.length 0 0 dorks

/-- Projection of a trace to its `result` events (dork, urls, count). -/
def resultEvents (tr : List RunEvent) : List (String × List String × Nat) :=
  tr.filterMap fun e =>
    match e with
    | .result d u c => some (d, u, c)
    | _ => none

/-- Projection of a trace to the proxies used by its fetches, in order. -/
def fetchProxies (tr : List RunEvent) : List (Option String) :=
  tr.filterMap fun e =>
    match e with
    | .fetch _ p => some p
    | _ => none

/-- All-200, empty-page outcome used by concrete witnesses. -/
def oAllOk : Nat → FetchOutcome := fun _ => FetchOutcome.ok 200 []

/-- Outcome family whose query 0 times out and whose other queries
succeed, used by concrete witnesses. -/
def oFail0 : Nat → FetchOutcome := fun i =>
  if i = 0 then FetchOutcome.timeout else FetchOutcome.ok 200 []

/-! ### ParameterExtractor: `extract_parameters`

`urlparse` strips the fragment at the first `#` and takes the query as
everything after the first `?` of the remainder; `parse_qs` splits the
query on `&`, drops empty chunks, chunks with no `=`, and chunks with an
empty value, decodes `+` as space plus percent-escapes, and groups values
under their name in first-occurrence order.  The GUI then collapses a
one-element value list to the bare value. -/

/-- Query component of a URL, per `urlparse`: drop the fragment (first
`#` onwards), then keep what follows the first `?`. -/
def queryOf (url : String) : String :=
  let preFrag :=
    match splitFirstChar '#' url.data with
    | none => url.data
    | some (pre, _) => pre
  match splitFirstChar '?' preFrag with
  | none => ""
  | some (_, post) => String.mk post

/-- Form decoding used by `parse_qs`: `+` becomes a space, then
percent-escapes are decoded. -/
def decodePlus (s : String) : String :=
  String.mk (unquoteList (s.data.map fun c => if c = '+' then ' ' else c))

/-- `urllib.parse.parse_qsl` with default options: the ordered
name/value pairs of a query string. -/
def parse_qsl (qs : String) : List (String × String) :=
  (splitChar '&' qs.data).filterMap fun chunk =>
    if chunk.isEmpty then none
    else
      match splitFirstChar '=' chunk with
      | none => none
      | some (n, v) =>
        if v.isEmpty then none
        else some (decodePlus (String.mk n), decodePlus (String.mk v))

/-- One `setdefault(name, []).append(value)` step of `parse_qs`'s
grouping dict: append to the existing entry, else add a new key at the
end. -/
def insertG : List (String × List String) → String × String → List (String × List String)
  | [], (k, v) => [(k, [v])]
  | (k', vs) :: rest, (k, v) =>
    if k' = k then (k', vs ++ [v]) :: rest
    else (k', vs) :: insertG rest (k, v)

/-- The grouping dict of `parse_qs`, in key first-occurrence order. -/
def groupPairs (pairs : List (String × String)) : List (String × List String) :=
  pairs.foldl insertG []

/-- A parameter value in the flattened mapping: a single value collapsed
to a scalar, or the ordered list of values of a repeated name. -/
inductive ParamValue
  | scalar (v : String)
  | list (vs : List String)
deriving DecidableEq

/-- The collapse `value[0] if len(value) == 1 else value` applied to one
grouped value list. -/
def collapseVals : List String → ParamValue
  | [v] => ParamValue.scalar v
  | vs => ParamValue.list vs

/-- The `parameters` component built by
`ParameterExtractor.extract_parameters`, in key first-occurrence order. -/
def extract_parameters (url : String) : List (String × ParamValue) :=
  (groupPairs (parse_qsl (queryOf url))).map fun kv => (kv.1, collapseVals kv.2)

/-- Association-list lookup on string keys (Python `dict[key]`). -/
def lookupKey {α : Type} (k : String) : List (String × α) → Option α
  | [] => none
  | (k', v) :: rest => if k' = k then some v else lookupKey k rest

/-- The ordered values carried by name `k` in a pair list. -/
def valuesFor (k : String) (pairs : List (String × String)) : List String :=
  (pairs.filter fun p => decide (p.1 = k)).map fun p => p.2

/-! ### UrlClassifier (`is_database_url`) and the GUI accumulation -/

/-- The fixed indicator-token catalogue of `is_database_url`. -/
def db_indicators : List String :=
  ["php", "asp", "aspx", "jsp", "id=", "page=", "cat=", "item=", "user=",
   "product=", "article=", "view=", "content=", "show="]

/-- `ParameterExtractor.is_database_url`: case-insensitive substring
test against the indicator catalogue. -/
def is_database_url (url : String) : Bool :=
  db_indicators.any fun ind => substrIn ind (pyLower url)

/-- One `PagodoGUI.on_search_result` step restricted to the
`database_urls` accumulator: every database-like URL of the incoming
result is appended, with no duplicate check. -/
def dbUrlsStep (dbUrls : List String) (urls : List String) : List String :=
  dbUrls ++ urls.filter fun u => is_database_url u

/-- The `database_urls` list after handling a sequence of result events
(each event carrying its dork and URL list), starting from the empty
state set up by `__init__`. -/
def dbUrlsAfter (results : List (String × List String)) : List String :=
  results.foldl (fun acc r => dbUrlsStep acc r.2) []

/-- `PagodoGUI.filter_database_urls`: `list(dict.fromkeys(database_urls))`,
i.e. insert every URL in order, keeping only first occurrences. -/
def filter_database_urls (dbUrls : List String) : List String :=
  dbUrls.foldl (fun acc u => if u ∈ acc then acc else acc ++ [u]) []

/-- Reference deduplication that keeps the first occurrence of each
element: keep the head, drop its later duplicates, recurse. -/
def keepFirsts : List String → List String
  | [] => []
  | x :: xs => x :: keepFirsts (xs.filter fun y => decide (y ≠ x))
termination_by l => l.length
decreasing_by simp only [List.length_cons]; exact Nat.lt_succ_of_le (List.length_filter_le _ _)

/-! ### DelayScheduler: `random.uniform` -/

/-- CPython `random.uniform(a, b) = a + (b - a) * random()`, with the
unit sample `r` made explicit. -/
def uniform (a b r : ℚ) : ℚ := a + (b - a) * r

/-! ### Run-start validation of the two front ends -/

/-- `PagodoGUI.start_search` of `pagodo_gui_pyqt6.py`: `true` when the
search thread is constructed and started (the run begins).  The only
rejection is an empty dork list; the delay spin-box values are passed to
the thread unchecked. -/
def start_search_pyqt6_starts (dorks : List String) (_minDelay _maxDelay : Nat) : Bool :=
  !dorks.isEmpty

/-- `PagodoGUI.start_search` of `pagodo_gui.py` (PyQt5): `true` when the
worker is constructed and started.  Rejected while a task is running,
when the selected dork file does not exist, and when the minimum delay
exceeds the maximum delay. -/
def start_search_pyqt5_starts (busy dorkFileExists : Bool)
    (minDelay maxDelay : ℚ) : Bool :=
  !busy && dorkFileExists && decide (minDelay ≤ maxDelay)

/-! ### Spec-side notion used to judge the extractor claim -/

/-- Modelled from the spec: "keep only values that parse as absolute
HTTP(S) URLs" — an absolute http/https URL begins with its scheme and
authority marker. -/
def isAbsHttpUrl (s : String) : Bool :=
  pyStartsWith s "http://" || pyStartsWith s "https://"

/-! ### Helper lemmas about the run trace -/

/-- Unfolding of one executed loop iteration. -/
theorem runFrom_cons_of_running (domain : String) (proxies : List String)
    (m : Nat) (o : Nat → FetchOutcome) (stopAfter : Option Nat) (total : Nat)
    (idx pidx : Nat) (dork : String) (rest : List String)
    (h : runningAt stopAfter idx = true) :
    runFrom domain proxies m o stopAfter total idx pidx (dork :: rest) =
      RunEvent.progress ("Searching: " ++ dork) (idx + 1) total ::
      RunEvent.fetch (buildQuery domain dork) (selectProxy proxies pidx) ::
      RunEvent.result dork (google_search (o idx) m)
        (google_search (o idx) m).length ::
      RunEvent.sleep ::
      runFrom domain proxies m o stopAfter total (idx + 1)
        (if proxies.isEmpty then pidx else pidx + 1) rest := by
  rw [runFrom, if_pos h]

/-- Unfolding of the cancellation `break`. -/
theorem runFrom_cons_of_stopped (domain : String) (proxies : List String)
    (m : Nat) (o : Nat → FetchOutcome) (stopAfter : Option Nat) (total : Nat)
    (idx pidx : Nat) (dork : String) (rest : List String)
    (h : runningAt stopAfter idx = false) :
    runFrom domain proxies m o stopAfter total idx pidx (dork :: rest) =
      [RunEvent.finished] := by
  rw [runFrom, if_neg]
  simp [h]

@[simp] theorem resultEvents_nil : resultEvents [] = [] := rfl

@[simp] theorem resultEvents_cons_progress (s : String) (c t : Nat) (tr : List RunEvent) :
    resultEvents (RunEvent.progress s c t :: tr) = resultEvents tr := rfl

@[simp] theorem resultEvents_cons_fetch (q : String) (p : Option String) (tr : List RunEvent) :
    resultEvents (RunEvent.fetch q p :: tr) = resultEvents tr := rfl

@[simp] theorem resultEvents_cons_result (d : String) (u : List String) (c : Nat)
    (tr : List RunEvent) :
    resultEvents (RunEvent.result d u c :: tr) = (d, u, c) :: resultEvents tr := rfl

@[simp] theorem resultEvents_cons_sleep (tr : List RunEvent) :
    resultEvents (RunEvent.sleep :: tr) = resultEvents tr := rfl

@[simp] theorem resultEvents_cons_finished (tr : List RunEvent) :
    resultEvents (RunEvent.finished :: tr) = resultEvents tr := rfl

@[simp] theorem fetchProxies_nil : fetchProxies [] = [] := rfl

@[simp] theorem fetchProxies_cons_progress (s : String) (c t : Nat) (tr : List RunEvent) :
    fetchProxies (RunEvent.progress s c t :: tr) = fetchProxies tr := rfl

@[simp] theorem fetchProxies_cons_fetch (q : String) (p : Option String) (tr : List RunEvent) :
    fetchProxies (RunEvent.fetch q p :: tr) = p :: fetchProxies tr := rfl

@[simp] theorem fetchProxies_cons_result (d : String) (u : List String) (c : Nat)
    (tr : List RunEvent) :
    fetchProxies (RunEvent.result d u c :: tr) = fetchProxies tr := rfl

@[simp] theorem fetchProxies_cons_sleep (tr : List RunEvent) :
    fetchProxies (RunEvent.sleep :: tr) = fetchProxies tr := rfl

@[simp] theorem fetchProxies_cons_finished (tr : List RunEvent) :
    fetchProxies (RunEvent.finished :: tr) = fetchProxies tr := rfl

/-- Mapping over `range (n + 1)` peels the head and shifts the index. -/
theorem range_map_shift {α : Type} (f g : Nat → α) (n : Nat)
    (h : ∀ j, f (j + 1) = g j) :
    (List.range (n + 1)).map f = f 0 :: (List.range n).map g := by
  rw [List.range_succ_eq_map, List.map_cons, List.map_map]
  congr 1
  exact List.map_congr_left fun a _ => h a

/-- Reading every position of a list back in order reproduces the list. -/
theorem map_getD_range {α : Type} (d : α) :
    ∀ l : List α, (List.range l.length).map (fun i => l.getD i d) = l := by
  intro l
  induction l with
  | nil => rfl
  | cons x xs ih =>
    rw [List.length_cons,
      range_map_shift (fun i => (x :: xs).getD i d) (fun i => xs.getD i d) xs.length
        (fun j => List.getD_cons_succ),
      List.getD_cons_zero, ih]

/-- Closed form of the `result` events of an uncancelled run suffix. -/
theorem resultEvents_runFrom_none (domain : String) (proxies : List String)
    (m : Nat) (o : Nat → FetchOutcome) (total : Nat) :
    ∀ (rest : List String) (idx pidx : Nat),
      resultEvents (runFrom domain proxies m o none total idx pidx rest) =
        (List.range rest.length).map fun j =>
          (rest.getD j "", google_search (o (idx + j)) m,
            (google_search (o (idx + j)) m).length) := by
  intro rest
  induction rest with
  | nil => intro idx pidx; rfl
  | cons dork rest ih =>
    intro idx pidx
    rw [List.length_cons,
      range_map_shift _
        (fun j => (rest.getD j "", google_search (o (idx + 1 + j)) m,
          (google_search (o (idx + 1 + j)) m).length)) rest.length ?_]
    · rw [runFrom_cons_of_running domain proxies m o none total idx pidx dork rest rfl]
      simp only [resultEvents_cons_progress, resultEvents_cons_fetch,
        resultEvents_cons_result, resultEvents_cons_sleep]
      rw [ih (idx + 1) (if proxies.isEmpty then pidx else pidx + 1)]
      simp
    · intro j
      have hidx : idx + (j + 1) = idx + 1 + j := by omega
      rw [List.getD_cons_succ, hidx]

/-- Closed form of the fetch proxies of an uncancelled run suffix: the
proxy cursor equals the iteration index throughout. -/
theorem fetchProxies_runFrom_none (domain : String) (proxies : List String)
    (m : Nat) (o : Nat → FetchOutcome) (total : Nat) :
    ∀ (rest : List String) (idx pidx : Nat),
      (proxies.isEmpty = false → pidx = idx) →
      fetchProxies (runFrom domain proxies m o none total idx pidx rest) =
        (List.range rest.length).map fun j => selectProxy proxies (idx + j) := by
  intro rest
  induction rest with
  | nil => intro idx pidx _; rfl
  | cons dork rest ih =>
    intro idx pidx hpidx
    rw [List.length_cons,
      range_map_shift _ (fun j => selectProxy proxies (idx + 1 + j)) rest.length ?_]
    · rw [runFrom_cons_of_running domain proxies m o none total idx pidx dork rest rfl]
      simp only [fetchProxies_cons_progress, fetchProxies_cons_fetch,
        fetchProxies_cons_result, fetchProxies_cons_sleep]
      rw [ih (idx + 1) (if proxies.isEmpty then pidx else pidx + 1) ?hp]
      case hp =>
        intro hne
        rw [if_neg, hpidx hne]
        exact fun hc => by rw [hne] at hc; exact Bool.false_ne_true hc
      have hsel : selectProxy proxies pidx = selectProxy proxies (idx + 0) := by
        cases he : proxies.isEmpty with
        | true => simp [selectProxy, he]
        | false => rw [hpidx he]; simp
      rw [hsel]
    · intro j
      have hidx : idx + (j + 1) = idx + 1 + j := by omega
      rw [hidx]

/-- Every run suffix ends with the single terminal `finished` event. -/
theorem runFrom_concat_finished (domain : String) (proxies : List String)
    (m : Nat) (o : Nat → FetchOutcome) (stopAfter : Option Nat) (total : Nat) :
    ∀ (rest : List String) (idx pidx : Nat),
      ∃ pre, runFrom domain proxies m o stopAfter total idx pidx rest =
        pre ++ [RunEvent.finished] := by
  intro rest
  induction rest with
  | nil => intro idx pidx; exact ⟨[], rfl⟩
  | cons dork rest ih =>
    intro idx pidx
    cases hr : runningAt stopAfter idx with
    | false =>
      exact ⟨[], runFrom_cons_of_stopped domain proxies m o stopAfter total idx pidx dork rest hr⟩
    | true =>
      obtain ⟨pre, hpre⟩ := ih (idx + 1) (if proxies.isEmpty then pidx else pidx + 1)
      refine ⟨RunEvent.progress ("Searching: " ++ dork) (idx + 1) total ::
        RunEvent.fetch (buildQuery domain dork) (selectProxy proxies pidx) ::
        RunEvent.result dork (google_search (o idx) m) (google_search (o idx) m).length ::
        RunEvent.sleep :: pre, ?_⟩
      rw [runFrom_cons_of_running domain proxies m o stopAfter total idx pidx dork rest hr,
        hpre]
      rfl

/-- No run suffix ever emits the `error` signal: the loop body catches
all per-query faults inside `google_search`. -/
theorem runFrom_no_error (domain : String) (proxies : List String)
    (m : Nat) (o : Nat → FetchOutcome) (stopAfter : Option Nat) (total : Nat) :
    ∀ (rest : List String) (idx pidx : Nat),
      (runFrom domain proxies m o stopAfter total idx pidx rest).all
        (fun e => !e.isError) = true := by
  intro rest
  induction rest with
  | nil => intro idx pidx; rfl
  | cons dork rest ih =>
    intro idx pidx
    cases hr : runningAt stopAfter idx with
    | false =>
      rw [runFrom_cons_of_stopped domain proxies m o stopAfter total idx pidx dork rest hr]
      rfl
    | true =>
      rw [runFrom_cons_of_running domain proxies m o stopAfter total idx pidx dork rest hr]
      simp only [List.all_cons, ih (idx + 1)]
      rfl

/-- Number of `result` events of a run suffix under a stop requested
after iteration `i`. -/
theorem resultEvents_length_runFrom_some (domain : String) (proxies : List String)
    (m : Nat) (o : Nat → FetchOutcome) (total i : Nat) :
    ∀ (rest : List String) (idx pidx : Nat),
      (resultEvents (runFrom domain proxies m o (some i) total idx pidx rest)).length =
        min rest.length (i + 1 - idx) := by
  intro rest
  induction rest with
  | nil => intro idx pidx; simp [runFrom]
  | cons dork rest ih =>
    intro idx pidx
    cases hr : runningAt (some i) idx with
    | false =>
      have hlt : ¬ idx ≤ i := of_decide_eq_false hr
      rw [runFrom_cons_of_stopped domain proxies m o (some i) total idx pidx dork rest hr]
      simp only [resultEvents_cons_finished, resultEvents_nil, List.length_nil,
        List.length_cons]
      omega
    | true =>
      have hle : idx ≤ i := of_decide_eq_true hr
      rw [runFrom_cons_of_running domain proxies m o (some i) total idx pidx dork rest hr]
      simp only [resultEvents_cons_progress, resultEvents_cons_fetch,
        resultEvents_cons_result, resultEvents_cons_sleep, List.length_cons,
        ih (idx + 1)]
      omega

/-- Full closed form of an uncancelled run suffix: per query one
`progress`, one `fetch`, one `result` and one trailing `sleep`, then the
terminal `finished`. -/
theorem runFrom_none_closed (domain : String) (proxies : List String)
    (m : Nat) (o : Nat → FetchOutcome) (total : Nat) :
    ∀ (rest : List String) (idx pidx : Nat),
      (proxies.isEmpty = false → pidx = idx) →
      runFrom domain proxies m o none total idx pidx rest =
        ((List.range rest.length).map fun j =>
          [RunEvent.progress ("Searching: " ++ rest.getD j "") (idx + j + 1) total,
           RunEvent.fetch (buildQuery domain (rest.getD j "")) (selectProxy proxies (idx + j)),
           RunEvent.result (rest.getD j "") (google_search (o (idx + j)) m)
             (google_search (o (idx + j)) m).length,
           RunEvent.sleep]).flatten ++ [RunEvent.finished] := by
  intro rest
  induction rest with
  | nil => intro idx pidx _; rfl
  | cons dork rest ih =>
    intro idx pidx hpidx
    rw [List.length_cons,
      range_map_shift _
        (fun j =>
          [RunEvent.progress ("Searching: " ++ rest.getD j "") (idx + 1 + j + 1) total,
           RunEvent.fetch (buildQuery domain (rest.getD j "")) (selectProxy proxies (idx + 1 + j)),
           RunEvent.result (rest.getD j "") (google_search (o (idx + 1 + j)) m)
             (google_search (o (idx + 1 + j)) m).length,
           RunEvent.sleep]) rest.length ?_]
    · rw [runFrom_cons_of_running domain proxies m o none total idx pidx dork rest rfl]
      rw [ih (idx + 1) (if proxies.isEmpty then pidx else pidx + 1) ?hp]
      case hp =>
        intro hne
        rw [if_neg, hpidx hne]
        exact fun hc => by rw [hne] at hc; exact Bool.false_ne_true hc
      have hsel : selectProxy proxies pidx = selectProxy proxies (idx + 0) := by
        cases he : proxies.isEmpty with
        | true => simp [selectProxy, he]
        | false => rw [hpidx he]; simp
      rw [hsel]
      simp [List.cons_append]
    · intro j
      have h1 : idx + (j + 1) = idx + 1 + j := by omega
      rw [List.getD_cons_succ, h1]

/-! ### Claim C1 -/

/-- C1: for every query list run with no cancellation, exactly one
`result` event is emitted per query, in the order of the input list
(hence exactly N events for N queries); this holds whatever the
per-query fetch outcomes are, so in particular with no failures. -/
theorem run_emits_one_result_per_query_in_order (dorks : List String)
    (domain : String) (proxies : List String) (m : Nat) (o : Nat → FetchOutcome) :
    (resultEvents (runEvents dorks domain proxies m o none)).map (fun r => r.1) = dorks ∧
    (resultEvents (runEvents dorks domain proxies m o none)).length = dorks.length := by
  have h := resultEvents_runFrom_none domain proxies m o dorks.length dorks 0 0
  constructor
  · rw [runEvents, h, List.map_map]
    exact map_getD_range "" dorks
  · rw [runEvents, h, List.length_map, List.length_range]

/-! ### Claim C4 -/

/-- C4: a transport failure (timeout, connection error, or non-2xx
status) on query `j` is non-fatal: the `result` event for query `j`
carries zero URLs, every query still gets its result event (so the run
proceeds past `j`), and the trace ends with the terminal `finished`
event. -/
theorem transport_failure_nonfatal (dorks : List String) (domain : String)
    (proxies : List String) (m : Nat) (o : Nat → FetchOutcome) (j : Nat)
    (hj : j < dorks.length) (hf : isTransportFailure (o j) = true) :
    (resultEvents (runEvents dorks domain proxies m o none))[j]? =
      some (dorks.getD j "", ([] : List String), 0) ∧
    (resultEvents (runEvents dorks domain proxies m o none)).length = dorks.length ∧
    (runEvents dorks domain proxies m o none).getLast? = some RunEvent.finished := by
  have h := resultEvents_runFrom_none domain proxies m o dorks.length dorks 0 0
  have hzero : google_search (o j) m = [] := by
    cases ho : o j with
    | ok status hrefs =>
      rw [ho] at hf
      have hst : status < 200 ∨ 300 ≤ status := of_decide_eq_true hf
      have hne : status ≠ 200 := by omega
      simp [google_search, hne]
    | timeout => rfl
    | connectionError => rfl
  refine ⟨?_, ?_, ?_⟩
  · rw [runEvents, h, List.getElem?_map, List.getElem?_range hj]
    simp [hzero]
  · rw [runEvents, h, List.length_map, List.length_range]
  · obtain ⟨pre, hpre⟩ :=
      runFrom_concat_finished domain proxies m o none dorks.length dorks 0 0
    rw [runEvents, hpre, List.getLast?_concat]

/-- Concrete instance for C4: two queries, query 0 times out; its result
event is ("a", [], 0), both queries get results, and the run finishes. -/
theorem transport_failure_nonfatal_witness :
    (resultEvents (runEvents ["a", "b"] "" [] 5 oFail0 none))[0]? =
      some ("a", ([] : List String), 0) ∧
    (resultEvents (runEvents ["a", "b"] "" [] 5 oFail0 none)).length = 2 ∧
    (runEvents ["a", "b"] "" [] 5 oFail0 none).getLast? = some RunEvent.finished :=
  transport_failure_nonfatal ["a", "b"] "" [] 5 oFail0 0 (by decide) (by decide)

/-! ### Claim C5 -/

/-- C5 (counterexample to "explicitly marked as user-cancelled"): a run
of two queries stopped after query 0 ends with exactly the same plain
`finished` terminal event as an uncancelled one-query run — the
`RunEvent` alphabet (the thread's Qt signals) carries no user-cancelled
marking at all, so the terminal event of a stopped run is
indistinguishable from normal completion. -/
theorem stop_terminal_event_unmarked :
    (runEvents ["a", "b"] "" [] 5 oAllOk (some 0)).getLast? =
      (runEvents ["a"] "" [] 5 oAllOk none).getLast? ∧
    (runEvents ["a", "b"] "" [] 5 oAllOk (some 0)).getLast? =
      some RunEvent.finished := by
  decide

/-- C5 amended: when a stop is requested after query `i` completes and
before query `i + 1` begins, exactly `i + 1` result events are emitted
and the run ends with the ordinary `finished` terminal event — never the
`error` event — but that terminal event carries no explicit
user-cancelled marking. -/
theorem stop_after_i_amended (dorks : List String) (domain : String)
    (proxies : List String) (m : Nat) (o : Nat → FetchOutcome) (i : Nat)
    (hi : i + 1 < dorks.length) :
    (resultEvents (runEvents dorks domain proxies m o (some i))).length = i + 1 ∧
    (runEvents dorks domain proxies m o (some i)).getLast? = some RunEvent.finished ∧
    (runEvents dorks domain proxies m o (some i)).all (fun e => !e.isError) = true := by
  refine ⟨?_, ?_, ?_⟩
  · rw [runEvents,
      resultEvents_length_runFrom_some domain proxies m o dorks.length i dorks 0 0]
    omega
  · obtain ⟨pre, hpre⟩ :=
      runFrom_concat_finished domain proxies m o (some i) dorks.length dorks 0 0
    rw [runEvents, hpre, List.getLast?_concat]
  · exact runFrom_no_error domain proxies m o (some i) dorks.length dorks 0 0

/-- Concrete instance for C5: three queries, stop after query 0: one
result event, terminal `finished`, no `error` event. -/
theorem stop_after_i_amended_witness :
    (resultEvents (runEvents ["a", "b", "c"] "" [] 5 oAllOk (some 0))).length = 1 ∧
    (runEvents ["a", "b", "c"] "" [] 5 oAllOk (some 0)).getLast? = some RunEvent.finished ∧
    (runEvents ["a", "b", "c"] "" [] 5 oAllOk (some 0)).all (fun e => !e.isError) = true :=
  stop_after_i_amended ["a", "b", "c"] "" [] 5 oAllOk 0 (by decide)

/-! ### Claim C6 -/

/-- C6: over an uncancelled run, the i-th fetch uses `pool[i mod m]` for
a non-empty pool of size m (round robin with wraparound, the cursor
advancing once per query), and no proxy at all when the pool is empty. -/
theorem proxy_round_robin (dorks : List String) (domain : String)
    (proxies : List String) (m : Nat) (o : Nat → FetchOutcome) :
    fetchProxies (runEvents dorks domain proxies m o none) =
      (List.range dorks.length).map fun i =>
        if proxies.isEmpty then none
        else some (proxies.getD (i % proxies.length) "") := by
  rw [runEvents,
    fetchProxies_runFrom_none domain proxies m o dorks.length dorks 0 0 (fun _ => rfl)]
  exact List.map_congr_left fun j _ => by rw [Nat.zero_add]; rfl

/-! ### Claim C10 -/

/-- C10: the full trace of an uncancelled run is, per query in order,
`progress`, `fetch`, `result`, then `sleep`, followed by the terminal
`finished`.  Hence the randomized delay comes after each query's result
event — including after the final one — no delay precedes the first
query's fetch, and `finished` is emitted only after the delay that
follows the last result. -/
theorem run_trace_structure (dorks : List String) (domain : String)
    (proxies : List String) (m : Nat) (o : Nat → FetchOutcome) :
    runEvents dorks domain proxies m o none =
      ((List.range dorks.length).map fun i =>
        [RunEvent.progress ("Searching: " ++ dorks.getD i "") (i + 1) dorks.length,
         RunEvent.fetch (buildQuery domain (dorks.getD i "")) (selectProxy proxies i),
         RunEvent.result (dorks.getD i "") (google_search (o i) m)
           (google_search (o i) m).length,
         RunEvent.sleep]).flatten ++ [RunEvent.finished] := by
  rw [runEvents,
    runFrom_none_closed domain proxies m o dorks.length dorks 0 0 (fun _ => rfl)]
  congr 1
  exact congrArg List.flatten (List.map_congr_left fun j _ => by rw [Nat.zero_add])

/-! ### Claim C9 -/

/-- C9: `random.uniform(min, max)` with a unit sample `r ∈ [0, 1]`
always lies within the configured bounds when `min ≤ max`, and when the
bounds coincide the produced delay is exactly the shared bound. -/
theorem uniform_delay_bounds (a b r : ℚ) (hab : a ≤ b) (h0 : 0 ≤ r) (h1 : r ≤ 1) :
    a ≤ uniform a b r ∧ uniform a b r ≤ b ∧ uniform a a r = a := by
  unfold uniform
  refine ⟨by nlinarith, by nlinarith, by ring⟩

/-- Concrete instance for C9 at bounds 2 and 5 with sample 1/2. -/
theorem uniform_delay_bounds_witness :
    (2 : ℚ) ≤ uniform 2 5 (1/2) ∧ uniform 2 5 (1/2) ≤ 5 ∧ uniform 2 2 (1/2) = 2 :=
  uniform_delay_bounds 2 5 (1/2) (by norm_num) (by norm_num) (by norm_num)

/-! ### Claim C3 -/

/-- C3 (counterexample): with a non-empty dork list, the PyQt6
`start_search` constructs and starts the search thread even though the
minimum delay (5) exceeds the maximum delay (2) — no delay-bound
validation happens before the run transitions to running. -/
theorem pyqt6_start_accepts_inverted_delays :
    start_search_pyqt6_starts ["intitle:index of"] 5 2 = true := by
  decide

/-- C3 amended: the PyQt5 front end rejects a configuration whose
minimum delay exceeds its maximum delay synchronously, before any worker
is started; the PyQt6 front end rejects an empty query list
synchronously; but the PyQt6 front end performs no delay-bound
validation (see the counterexample). -/
theorem start_validation_amended (busy dorkFileExists : Bool) (minD maxD : ℚ)
    (h : maxD < minD) (minN maxN : Nat) :
    start_search_pyqt5_starts busy dorkFileExists minD maxD = false ∧
    start_search_pyqt6_starts [] minN maxN = false := by
  constructor
  · unfold start_search_pyqt5_starts
    rw [decide_eq_false (not_le.mpr h)]
    simp
  · rfl

/-- Concrete instance for C3: delays (5, 2) with an existing dork file
and idle GUI are rejected by the PyQt5 front end; the empty list is
rejected by the PyQt6 front end. -/
theorem start_validation_amended_witness :
    start_search_pyqt5_starts false true 5 2 = false ∧
    start_search_pyqt6_starts [] 5 2 = false :=
  start_validation_amended false true 5 2 (by norm_num) 5 2

/-! ### Claim C7 -/

/-- Invariant of the extraction loop: starting below the cap with only
"http"-prefixed URLs collected, the loop never exceeds the cap and only
collects "http"-prefixed URLs. -/
theorem extractLoop_spec (maxResults : Nat) :
    ∀ (hrefs acc : List String), acc.length < maxResults →
      acc.all (fun u => pyStartsWith u "http") = true →
      (extractLoop hrefs maxResults acc).length ≤ maxResults ∧
      (extractLoop hrefs maxResults acc).all (fun u => pyStartsWith u "http") = true := by
  intro hrefs
  induction hrefs with
  | nil =>
    intro acc hlen hpre
    exact ⟨le_of_lt hlen, hpre⟩
  | cons href rest ih =>
    intro acc hlen hpre
    cases hc : hrefCandidate href with
    | none =>
      have hstep : extractLoop (href :: rest) maxResults acc =
          extractLoop rest maxResults acc := by
        simp only [extractLoop, hc]
      rw [hstep]
      exact ih acc hlen hpre
    | some url =>
      cases hs : pyStartsWith url "http" with
      | false =>
        have hstep : extractLoop (href :: rest) maxResults acc =
            extractLoop rest maxResults acc := by
          simp only [extractLoop, hc, hs, Bool.false_eq_true, if_false]
        rw [hstep]
        exact ih acc hlen hpre
      | true =>
        have hall : (acc ++ [url]).all (fun u => pyStartsWith u "http") = true := by
          rw [List.all_append, hpre]
          simp [hs]
        by_cases hm : maxResults ≤ (acc ++ [url]).length
        · have hstep : extractLoop (href :: rest) maxResults acc = acc ++ [url] := by
            simp only [extractLoop, hc, hs, if_true, if_pos hm]
          rw [hstep]
          refine ⟨?_, hall⟩
          rw [List.length_append, List.length_singleton]
          omega
        · have hstep : extractLoop (href :: rest) maxResults acc =
              extractLoop rest maxResults (acc ++ [url]) := by
            simp only [extractLoop, hc, hs, if_true, if_neg hm]
          rw [hstep]
          exact ih (acc ++ [url]) (by omega) hall

/-- C7 (counterexample): on the page whose only anchor is
`/url?q=httpx&y` and with a result cap of 0, `google_search`'s extraction
returns one URL — exceeding the cap — and that URL, `httpx`, is not an
absolute http/https URL (the code only tests the prefix "http"). -/
theorem extractUrls_claim_counterexample :
    extractUrls ["/url?q=httpx&y"] 0 = ["httpx"] ∧
    isAbsHttpUrl "httpx" = false := by
  decide

/-- C7 amended: for every response body and every result cap of at least
one (the GUI spin box enforces `max_results ≥ 1`), the extractor returns
at most `maxResults` URLs, and every returned URL starts with the
character prefix "http" (which admits strings that are not absolute
http/https URLs). -/
theorem extractUrls_cap_and_httpStart (hrefs : List String) (maxResults : Nat)
    (h : 1 ≤ maxResults) :
    (extractUrls hrefs maxResults).length ≤ maxResults ∧
    (extractUrls hrefs maxResults).all (fun u => pyStartsWith u "http") = true :=
  extractLoop_spec maxResults hrefs [] (by simp only [List.length_nil]; omega) rfl

/-- Concrete instance for C7: two matching anchors with a cap of 1 yield
at most one URL, all "http"-prefixed. -/
theorem extractUrls_cap_and_httpStart_witness :
    (extractUrls ["/url?q=http://a.com/&z", "/url?q=http://b.com/&z"] 1).length ≤ 1 ∧
    (extractUrls ["/url?q=http://a.com/&z", "/url?q=http://b.com/&z"] 1).all
      (fun u => pyStartsWith u "http") = true :=
  extractUrls_cap_and_httpStart ["/url?q=http://a.com/&z", "/url?q=http://b.com/&z"] 1
    (by decide)

/-! ### Claim C2 -/

/-- Structural companion of `filter_database_urls`: process the list
keeping elements not yet seen, with the seen list threaded explicitly. -/
def dedupSeen : List String → List String → List String
  | [], _ => []
  | x :: xs, seen =>
    if x ∈ seen then dedupSeen xs seen else x :: dedupSeen xs (seen ++ [x])

/-- The fold of `filter_database_urls` is `dedupSeen` with the
accumulator as both output prefix and seen set. -/
theorem foldl_dedup_eq (l : List String) :
    ∀ acc : List String,
      List.foldl (fun acc u => if u ∈ acc then acc else acc ++ [u]) acc l =
        acc ++ dedupSeen l acc := by
  induction l with
  | nil => intro acc; simp [dedupSeen]
  | cons x xs ih =>
    intro acc
    by_cases hx : x ∈ acc
    · simp only [List.foldl_cons, if_pos hx, dedupSeen, ih]
    · simp only [List.foldl_cons, if_neg hx, dedupSeen, ih (acc ++ [x])]
      simp

/-- Membership in `dedupSeen`: an element of the input not already seen. -/
theorem mem_dedupSeen (u : String) :
    ∀ (l seen : List String), u ∈ dedupSeen l seen ↔ u ∈ l ∧ u ∉ seen := by
  intro l
  induction l with
  | nil => intro seen; simp [dedupSeen]
  | cons x xs ih =>
    intro seen
    by_cases hx : x ∈ seen
    · rw [dedupSeen, if_pos hx, ih]
      constructor
      · exact fun h => ⟨List.mem_cons_of_mem x h.1, h.2⟩
      · rintro ⟨h1, h2⟩
        rcases List.mem_cons.mp h1 with h1 | h1
        · exact absurd (h1 ▸ hx) h2
        · exact ⟨h1, h2⟩
    · rw [dedupSeen, if_neg hx, List.mem_cons, ih, List.mem_cons]
      constructor
      · rintro (h | ⟨h1, h2⟩)
        · subst h; exact ⟨Or.inl rfl, hx⟩
        · exact ⟨Or.inr h1, fun hc => h2 (List.mem_append_left _ hc)⟩
      · rintro ⟨h1, h2⟩
        by_cases he : u = x
        · exact Or.inl he
        · rcases h1 with h1 | h1
          · exact absurd h1 he
          · refine Or.inr ⟨h1, fun hc => ?_⟩
            rcases List.mem_append.mp hc with hc | hc
            · exact h2 hc
            · exact he (List.mem_singleton.mp hc)

/-- `dedupSeen` never emits a duplicate. -/
theorem nodup_dedupSeen :
    ∀ (l seen : List String), (dedupSeen l seen).Nodup := by
  intro l
  induction l with
  | nil => intro seen; exact List.nodup_nil
  | cons x xs ih =>
    intro seen
    by_cases hx : x ∈ seen
    · rw [dedupSeen, if_pos hx]; exact ih seen
    · rw [dedupSeen, if_neg hx, List.nodup_cons]
      refine ⟨fun hc => ?_, ih (seen ++ [x])⟩
      have := (mem_dedupSeen x xs (seen ++ [x])).mp hc
      exact this.2 (List.mem_append_right seen (List.mem_singleton.mpr rfl))

/-- `dedupSeen` preserves the input order: it is a sublist. -/
theorem sublist_dedupSeen :
    ∀ (l seen : List String), List.Sublist (dedupSeen l seen) l := by
  intro l
  induction l with
  | nil => intro seen; exact List.Sublist.refl []
  | cons x xs ih =>
    intro seen
    by_cases hx : x ∈ seen
    · rw [dedupSeen, if_pos hx]; exact List.Sublist.cons x (ih seen)
    · rw [dedupSeen, if_neg hx]; exact List.Sublist.cons₂ x (ih (seen ++ [x]))

/-- `dedupSeen` is `keepFirsts` of the not-yet-seen elements. -/
theorem dedupSeen_eq_keepFirsts :
    ∀ (l seen : List String),
      dedupSeen l seen = keepFirsts (l.filter fun y => decide (y ∉ seen)) := by
  intro l
  induction l with
  | nil => intro seen; simp [dedupSeen, keepFirsts]
  | cons x xs ih =>
    intro seen
    by_cases hx : x ∈ seen
    · rw [dedupSeen, if_pos hx, List.filter_cons, if_neg (by simp [hx]), ih]
    · rw [dedupSeen, if_neg hx, List.filter_cons, if_pos (by simp [hx]), keepFirsts,
        List.filter_filter, ih (seen ++ [x])]
      refine congrArg (x :: ·) (congrArg keepFirsts (List.filter_congr fun y _ => ?_))
      have hiff : (y ∉ seen ++ [x]) ↔ (y ≠ x ∧ y ∉ seen) := by
        simp only [List.mem_append, List.mem_singleton]
        tauto
      rw [decide_eq_decide.mpr hiff, Bool.decide_and]

/-- C2 (counterexample): handling two result events that each carry the
database-like URL `http://a.com/x.php` leaves `database_urls` with that
URL twice — `on_search_result` appends with no duplicate check, so the
accumulating collection is not deduplicated after every result-handling
step. -/
theorem dbUrls_accumulate_duplicates :
    dbUrlsAfter [("d", ["http://a.com/x.php"]), ("d", ["http://a.com/x.php"])] =
      ["http://a.com/x.php", "http://a.com/x.php"] ∧
    ¬ (dbUrlsAfter [("d", ["http://a.com/x.php"]),
        ("d", ["http://a.com/x.php"])]).Nodup := by
  decide

/-- C2 amended: the accumulated `database_urls` collection may contain
duplicates while results are handled; deduplication happens when
`filter_database_urls` is invoked, and that pass keeps exactly the first
occurrence of each URL (it equals the keep-first-occurrence reference),
yields a duplicate-free list, preserves insertion order (a sublist of
the accumulated list), and loses no URL. -/
theorem filter_database_urls_dedups_keep_first (results : List (String × List String)) :
    filter_database_urls (dbUrlsAfter results) = keepFirsts (dbUrlsAfter results) ∧
    (filter_database_urls (dbUrlsAfter results)).Nodup ∧
    List.Sublist (filter_database_urls (dbUrlsAfter results)) (dbUrlsAfter results) ∧
    ∀ u, u ∈ filter_database_urls (dbUrlsAfter results) ↔ u ∈ dbUrlsAfter results := by
  have hbase : filter_database_urls (dbUrlsAfter results) =
      dedupSeen (dbUrlsAfter results) [] := by
    rw [filter_database_urls, foldl_dedup_eq (dbUrlsAfter results) [], List.nil_append]
  refine ⟨?_, ?_, ?_, ?_⟩
  · rw [hbase, dedupSeen_eq_keepFirsts (dbUrlsAfter results) []]
    congr 1
    rw [show (fun y => decide (y ∉ ([] : List String))) = fun _ => true from
      funext fun y => by simp]
    exact List.filter_true _
  · rw [hbase]; exact nodup_dedupSeen (dbUrlsAfter results) []
  · rw [hbase]; exact sublist_dedupSeen (dbUrlsAfter results) []
  · intro u
    rw [hbase, mem_dedupSeen u (dbUrlsAfter results) []]
    simp

/-! ### Claim C8 -/

/-- Effect of one grouping-dict insertion on a key lookup. -/
theorem lookupKey_insertG (k k₁ : String) (v : String) :
    ∀ acc : List (String × List String),
      lookupKey k (insertG acc (k₁, v)) =
        if k₁ = k then some ((lookupKey k acc).getD [] ++ [v])
        else lookupKey k acc := by
  intro acc
  induction acc with
  | nil =>
    by_cases h : k₁ = k <;> simp [insertG, lookupKey, h]
  | cons kv rest ih =>
    obtain ⟨k', vs⟩ := kv
    by_cases h1 : k' = k₁
    · subst h1
      by_cases h2 : k' = k
      · subst h2
        simp [insertG, lookupKey]
      · simp [insertG, lookupKey, h2]
    · by_cases h2 : k' = k
      · subst h2
        have h1' : ¬ k₁ = k' := fun hc => h1 hc.symm
        simp [insertG, lookupKey, h1, h1']
      · simp [insertG, lookupKey, h1, h2, ih]

/-- Values of a key in a pair list, unfolded over a cons. -/
theorem valuesFor_cons (k k₁ v : String) (pairs : List (String × String)) :
    valuesFor k ((k₁, v) :: pairs) =
      if k₁ = k then v :: valuesFor k pairs else valuesFor k pairs := by
  by_cases h : k₁ = k <;> simp [valuesFor, List.filter_cons, h]

/-- The grouping fold collects, under each key, exactly that key's
values in pair order (appended after whatever the accumulator held). -/
theorem lookupKey_foldl_insertG :
    ∀ (pairs : List (String × String)) (acc : List (String × List String)) (k : String),
      lookupKey k (List.foldl insertG acc pairs) =
        match lookupKey k acc with
        | some vs => some (vs ++ valuesFor k pairs)
        | none => if valuesFor k pairs = [] then none else some (valuesFor k pairs) := by
  intro pairs
  induction pairs with
  | nil =>
    intro acc k
    cases h : lookupKey k acc with
    | none => simp [List.foldl_nil, valuesFor, h]
    | some vs => simp [List.foldl_nil, valuesFor, h]
  | cons p rest ih =>
    intro acc k
    obtain ⟨k₁, v⟩ := p
    rw [List.foldl_cons, ih (insertG acc (k₁, v)) k, lookupKey_insertG k k₁ v acc,
      valuesFor_cons]
    by_cases h : k₁ = k
    · rw [if_pos h, if_pos h]
      cases hacc : lookupKey k acc with
      | none => simp
      | some vs => simp
    · rw [if_neg h, if_neg h]

/-- Lookup of the grouped dict of `parse_qs`. -/
theorem lookupKey_groupPairs (pairs : List (String × String)) (k : String) :
    lookupKey k (groupPairs pairs) =
      if valuesFor k pairs = [] then none else some (valuesFor k pairs) := by
  rw [groupPairs, lookupKey_foldl_insertG pairs [] k]
  rfl

/-- Lookup commutes with the per-value collapse map. -/
theorem lookupKey_map_collapse (k : String) :
    ∀ l : List (String × List String),
      lookupKey k (l.map fun kv => (kv.1, collapseVals kv.2)) =
        (lookupKey k l).map collapseVals := by
  intro l
  induction l with
  | nil => rfl
  | cons kv rest ih =>
    obtain ⟨k', vs⟩ := kv
    by_cases h : k' = k <;> simp [lookupKey, h, ih]

/-- C8: `extract_parameters` maps each query-string parameter name to
its value(s), collapsing a name occurring once to the bare value and
keeping a repeated name as the ordered list of its values; in
particular, `http://x.com/a?id=5&id=6&name=bob` yields `id` mapped to
the list ["5", "6"] and `name` mapped to the scalar "bob". -/
theorem extract_parameters_collapse :
    extract_parameters "http://x.com/a?id=5&id=6&name=bob" =
      [("id", ParamValue.list ["5", "6"]), ("name", ParamValue.scalar "bob")] ∧
    (∀ url k v, valuesFor k (parse_qsl (queryOf url)) = [v] →
      lookupKey k (extract_parameters url) = some (ParamValue.scalar v)) ∧
    (∀ url k vs, valuesFor k (parse_qsl (queryOf url)) = vs → 2 ≤ vs.length →
      lookupKey k (extract_parameters url) = some (ParamValue.list vs)) := by
  refine ⟨by decide, ?_, ?_⟩
  · intro url k v hv
    rw [extract_parameters, lookupKey_map_collapse k, lookupKey_groupPairs, hv]
    simp [collapseVals]
  · intro url k vs hvs hlen
    rw [extract_parameters, lookupKey_map_collapse k, lookupKey_groupPairs, hvs]
    match vs, hlen with
    | v₁ :: v₂ :: rest, _ =>
      simp only [if_neg (List.cons_ne_nil v₁ (v₂ :: rest)), Option.map_some]
      rfl

/-- Concrete instance for C8 at the URL named by the claim. -/
theorem extract_parameters_collapse_witness :
    lookupKey "name" (extract_parameters "http://x.com/a?id=5&id=6&name=bob") =
      some (ParamValue.scalar "bob") ∧
    lookupKey "id" (extract_parameters "http://x.com/a?id=5&id=6&name=bob") =
      some (ParamValue.list ["5", "6"]) :=
  ⟨extract_parameters_collapse.2.1 "http://x.com/a?id=5&id=6&name=bob" "name" "bob"
      (by decide),
   extract_parameters_collapse.2.2 "http://x.com/a?id=5&id=6&name=bob" "id" ["5", "6"]
      (by decide) (by decide)⟩

end Pagodo
